import Mathlib

/-!
Verification development for the xcsv package (extended CSV reader/writer).

The Python source in `src/xcsv/__init__.py` is shallowly embedded below:
strings are Lean `String`s, Python dynamic values are the inductive `PyVal`,
the two `re` patterns used by the token grammars are embedded as explicit
leftmost-greedy backtracking matchers specialised to those patterns, and
fallible operations return `Except`.  The pandas table engine is external to
the repository; where a claim depends on it, the table pass is modelled from
the specification and the definition says so in its doc comment.
-/

namespace XCSVSpec

/-- Python `\s` for the ASCII range (the inputs of interest are ASCII). -/
def pySpace (c : Char) : Bool :=
  c == ' ' || c == '\t' || c == '\n' || c == '\r' || c == '\x0b' || c == '\x0c'

/-- The regex `.` metacharacter: any character except a newline. -/
def notNL (c : Char) : Bool := c != '\n'

/-- The character class `[^][)(]` of the column-header pattern. -/
def nameChar (c : Char) : Bool :=
  !(c == '[' || c == ']' || c == '(' || c == ')')

/-- First alternative that succeeds, in order: the backtracking search. -/
def firstSome : List α → (α → Option β) → Option β
  | [], _ => none
  | a :: as, f => match f a with
    | some b => some b
    | none => firstSome as f

/-- All ways to match `C+` (one or more characters of class `p`) at the head
of `cs`, longest first, paired with the remaining suffix: the greedy
disambiguation order of a regex `+` quantifier. -/
def splitsDesc (p : Char → Bool) (cs : List Char) : List (List Char × List Char) :=
  let run := cs.takeWhile p
  let rest := cs.drop run.length
  (List.range run.length).map fun k =>
    let n := run.length - k
    (run.take n, run.drop n ++ rest)

/-- The `$` anchor in Python (non-multiline): end of string, or just before a
single trailing newline. -/
def dollarEnd : List Char → Bool
  | [] => true
  | [c] => c == '\n'
  | _ => false

/-- Named groups of `file_header_pattern`: `(?P<value>.+)\s+\((?P<units>.+)\)$`.
Both groups are mandatory, so both fields are plain strings. -/
structure FileTokens where
  value : String
  units : String
deriving DecidableEq, Repr

/-- Named groups of `column_header_pattern`:
`(?P<name>[^][)(]+)(\s+\((?P<units>.+)\))?(\s+\[(?P<notes>.+)\])?$`.
The units and notes groups are optional, matching the `groupdict` result. -/
structure ColTokens where
  name : String
  units : Option String
  notes : Option String
deriving DecidableEq, Repr

/-- Match `(\s+\[(?P<notes>.+)\])?$` at `cs` (tail of the column pattern),
trying the group before skipping it, greedily. -/
def matchNotesEnd (cs : List Char) : Option (Option String) :=
  match firstSome (splitsDesc pySpace cs) fun sp =>
    match sp.2 with
    | '[' :: r2 =>
      firstSome (splitsDesc notNL r2) fun nt =>
        match nt.2 with
        | ']' :: r4 => if dollarEnd r4 then some (some (String.mk nt.1)) else none
        | _ => none
    | _ => none
  with
  | some r => some r
  | none => if dollarEnd cs then some none else none

/-- Match `(\s+\((?P<units>.+)\))?(\s+\[(?P<notes>.+)\])?$` at `cs`. -/
def matchUnitsNotesEnd (cs : List Char) : Option (Option String × Option String) :=
  match firstSome (splitsDesc pySpace cs) fun sp =>
    match sp.2 with
    | '(' :: r2 =>
      firstSome (splitsDesc notNL r2) fun us =>
        match us.2 with
        | ')' :: r4 => (matchNotesEnd r4).map fun nt => (some (String.mk us.1), nt)
        | _ => none
    | _ => none
  with
  | some r => some r
  | none => (matchNotesEnd cs).map fun nt => (none, nt)

/-- Attempt the whole column-header pattern at the start of `cs`. -/
def matchColumnAt (cs : List Char) : Option ColTokens :=
  firstSome (splitsDesc nameChar cs) fun nm =>
    (matchUnitsNotesEnd nm.2).map fun r =>
      { name := String.mk nm.1, units := r.1, notes := r.2 }

/-- `re.search` with the column-header pattern: try each start position,
leftmost first. -/
def searchColumn (cs : List Char) : Option ColTokens :=
  match matchColumnAt cs with
  | some r => some r
  | none =>
    match cs with
    | [] => none
    | _ :: t => searchColumn t

/-- Attempt the whole file-header pattern at the start of `cs`. -/
def matchFileAt (cs : List Char) : Option FileTokens :=
  firstSome (splitsDesc notNL cs) fun v =>
    firstSome (splitsDesc pySpace v.2) fun sp =>
      match sp.2 with
      | '(' :: r3 =>
        firstSome (splitsDesc notNL r3) fun us =>
          match us.2 with
          | ')' :: r5 =>
            if dollarEnd r5 then some ⟨String.mk v.1, String.mk us.1⟩ else none
          | _ => none
      | _ => none

/-- `re.search` with the file-header pattern: try each start position,
leftmost first. -/
def searchFile (cs : List Char) : Option FileTokens :=
  match matchFileAt cs with
  | some r => some r
  | none =>
    match cs with
    | [] => none
    | _ :: t => searchFile t

/-- Python `str.strip()` (ASCII whitespace), on character lists. -/
def pyStripL (cs : List Char) : List Char :=
  ((cs.dropWhile pySpace).reverse.dropWhile pySpace).reverse

/-- Python `str.strip()` on strings. -/
def pyStrip (s : String) : String := String.mk (pyStripL s.data)

/-- Python `str.lstrip(chars)`: drop leading characters belonging to the set. -/
def pyLStrip (s chars : String) : String :=
  String.mk (s.data.dropWhile (fun c => chars.data.contains c))

/-- `_strip_tokens` on a file-header token dict: strip both captured values. -/
def stripFileTokens (t : FileTokens) : FileTokens :=
  ⟨pyStrip t.value, pyStrip t.units⟩

/-- `_strip_tokens` on a column-header token dict: `None` members have no
`strip()` and pass through unchanged. -/
def stripColTokens (t : ColTokens) : ColTokens :=
  ⟨pyStrip t.name, t.units.map pyStrip, t.notes.map pyStrip⟩

/-- `XCSV.parse_file_header_tokens`: `_strip_tokens(_parse_tokens(s, pattern))`
with `DEFAULTS[file_header_pattern]`. -/
def parse_file_header_tokens (s : String) : Option FileTokens :=
  (searchFile s.data).map stripFileTokens

/-- `XCSV.parse_column_header_tokens`: `_strip_tokens(_parse_tokens(s, pattern))`
with `DEFAULTS[column_header_pattern]`. -/
def parse_column_header_tokens (s : String) : Option ColTokens :=
  (searchColumn s.data).map stripColTokens

end XCSVSpec

namespace XCSVSpec

/-- Executable prefix test on character lists (used for `str.startswith` and
substring search). -/
def listIsPrefix (p l : List Char) : Bool :=
  match p, l with
  | [], _ => true
  | _ :: _, [] => false
  | a :: as, b :: bs => a == b && listIsPrefix as bs

/-- Executable contiguous-substring test on character lists. -/
def listHasInfix (needle : List Char) : List Char → Bool
  | [] => needle.isEmpty
  | c :: rest => listIsPrefix needle (c :: rest) || listHasInfix needle rest

/-- Python `needle in hay` on strings: substring membership. -/
def strContains (hay needle : String) : Bool := listHasInfix needle.data hay.data

/-- Python `s.startswith(pre)`. -/
def pyStartsWith (s pre : String) : Bool := listIsPrefix pre.data s.data

/-- Python `s.split(sep, maxsplit=1)` that found a separator: split around the
first occurrence of `delim`; `none` when `delim` does not occur (in which case
the two-element unpacking in the source raises ValueError). -/
def splitOnceL (delim : List Char) : List Char → Option (List Char × List Char)
  | [] => none
  | c :: rest =>
    if listIsPrefix delim (c :: rest) then some ([], (c :: rest).drop delim.length)
    else
      match splitOnceL delim rest with
      | some p => some (c :: p.1, p.2)
      | none => none

/-- Python `s.split(delim, maxsplit=1)` on strings (successful case). -/
def pySplitOnce (s delim : String) : Option (String × String) :=
  (splitOnceL delim.data s.data).map fun p => (String.mk p.1, String.mk p.2)

/-- Python dynamic values as they occur in this package: strings, numbers,
`None`, dicts with string keys, and lists. -/
inductive PyVal where
  | str (s : String)
  | int (n : Int)
  | float (q : Rat)
  | dict (d : List (String × PyVal))
  | list (l : List PyVal)
  | none

/-- Header keys: `read_header` can legitimately call `set_header_key_value`
with `key = None` (an escaped continuation line before any keyed line), so a
key is an optional string, like the Python value that flows into the dict. -/
abbrev Key := Option String

/-- A parsed extended header: a string-keyed, insertion-ordered mapping, as a
Python dict with unique keys. -/
abbrev Header := List (Key × PyVal)

/-- Dict lookup in an association list (keys are unique by construction). -/
def lookupAssoc [BEq κ] : List (κ × α) → κ → Option α
  | [], _ => Option.none
  | (k, v) :: rest, key => if k == key then some v else lookupAssoc rest key

/-- Python dict assignment `d[k] = v`: overwrite in place if the key exists
(keeping its position), else append at the end (insertion order). -/
def updateAssoc [BEq κ] : List (κ × α) → κ → α → List (κ × α)
  | [], k, v => [(k, v)]
  | (k1, v1) :: rest, k, v =>
    if k1 == k then (k, v) :: rest else (k1, v1) :: updateAssoc rest k v

/-- Lookup in a string-keyed Python dict. -/
def lookupStrKey (d : List (String × PyVal)) (k : String) : Option PyVal :=
  lookupAssoc d k

def isDict : PyVal → Bool
  | .dict _ => true
  | _ => false

def isList : PyVal → Bool
  | .list _ => true
  | _ => false

def isStr : PyVal → Bool
  | .str _ => true
  | _ => false

def asStr : PyVal → String
  | .str s => s
  | _ => ""

/-- A single-quote character, for building Python repr strings. -/
def sq : String := String.mk [Char.ofNat 39]

/-- Python `repr` of the atoms that occur as dict members on the embedded
paths (parsed token dicts hold captured strings; the other branches are a
coarse rendering that no embedded path reaches). -/
def pyReprAtom : PyVal → String
  | .str s => sq ++ s ++ sq
  | .int n => toString n
  | .float q => toString q.num
  | .none => "None"
  | .dict _ => "\x7b...\x7d"
  | .list _ => "[...]"

/-- Python `repr`/`str` of a string-keyed dict, as interpolated by the
f-string in `_get_list_header_exception_context`. -/
def pyReprDict (d : List (String × PyVal)) : String :=
  "\x7b" ++ String.intercalate ", " (d.map fun p => sq ++ p.1 ++ sq ++ ": " ++ pyReprAtom p.2) ++ "\x7d"

/-- Python `str(v)` as used by `str.format` on a template component. -/
def pyFormatVal : PyVal → String
  | .str s => s
  | .int n => toString n
  | .float q => toString q.num
  | .none => "None"
  | .dict d => pyReprDict d
  | .list _ => "[...]"

/-- `XCSV._reconstruct_header_string`: build the template from the components
whose key is present in the dict with a non-None value, join with a single
space, then substitute the values.  Each template component is given as its
key paired with the rendering of `'{key}'` inside that component. -/
def _reconstruct_header_string (d : List (String × PyVal))
    (keysTmpl : List (String × (String → String))) : String :=
  String.intercalate " "
    ((keysTmpl.filter fun kt =>
        match lookupStrKey d kt.1 with
        | some PyVal.none => false
        | some _ => true
        | Option.none => false).map
      fun kt =>
        kt.2 (pyFormatVal ((lookupStrKey d kt.1).getD PyVal.none)))

/-- `XCSV.reconstruct_file_header_string`: templates `[{value}, ({units})]`. -/
def reconstruct_file_header_string (d : List (String × PyVal)) : String :=
  _reconstruct_header_string d
    [("value", fun s => s), ("units", fun s => "(" ++ s ++ ")")]

/-- `XCSV.reconstruct_column_header_string`: templates
`[{name}, ({units}), [{notes}]]`. -/
def reconstruct_column_header_string (d : List (String × PyVal)) : String :=
  _reconstruct_header_string d
    [("name", fun s => s), ("units", fun s => "(" ++ s ++ ")"),
     ("notes", fun s => "[" ++ s ++ "]")]

/-- The `groupdict` of a file-header match, as a Python dict value. -/
def fileTokensDict (t : FileTokens) : List (String × PyVal) :=
  [("value", .str t.value), ("units", .str t.units)]

/-- The `groupdict` of a column-header match, as a Python dict value
(unmatched optional groups are `None`). -/
def colTokensDict (t : ColTokens) : List (String × PyVal) :=
  [("name", .str t.name),
   ("units", match t.units with | some u => .str u | Option.none => PyVal.none),
   ("notes", match t.notes with | some n => .str n | Option.none => PyVal.none)]

/-- The fixed leading text of the list-header exception note. -/
def listHeaderBaseNote : String :=
  "XCSV has parsed an element in a list header item as a value/units dict. This is unsupported in list header items. If this wasn" ++ sq ++
  "t intended to be a value/units dict, then ensure that the line doesn" ++ sq ++
  "t end with a closing parenthesis " ++ sq ++ ")" ++ sq ++
  ", either by removing the parentheses or adding some text after the closing parenthesis. A " ++ sq ++ "." ++ sq ++ " would suffice."

/-- `XCSV._get_list_header_exception_context`: if the list holds a dict, the
note names the offending reconstructed line (the first dict candidate) and its
parsed components; otherwise the note is empty. -/
def _get_list_header_exception_context (l : List PyVal) : String :=
  match (l.filter isDict).head? with
  | some (PyVal.dict d) =>
    listHeaderBaseNote ++ "\nThe cause is this line: " ++ reconstruct_file_header_string d ++
    "\nwhich has been parsed as: " ++ pyReprDict d
  | _ => ""

/-- `Reader.set_header_key_value`: set-or-append accumulation on the header
dict, returning the updated header and, when a dict value has just been placed
into a list-valued item, the message of the TypeError it raises.  The header
mutation happens before the check, as in the source. -/
def set_header_key_value (h : Header) (k : Key) (v : PyVal) : Header × Option String :=
  let newVal : PyVal :=
    match lookupAssoc h k with
    | some (PyVal.list l) => .list (l ++ [v])
    | some prev => .list [prev, v]
    | Option.none => v
  let hNew := updateAssoc h k newVal
  match newVal, v with
  | PyVal.list l, PyVal.dict _ => (hNew, some (_get_list_header_exception_context l))
  | _, _ => (hNew, Option.none)

/-- Embedded Python exceptions, with their messages. -/
inductive PyErr where
  | keyError (msg : String)
  | valueError (msg : String)
  | typeError (msg : String)
deriving DecidableEq, Repr

/-- Python truthiness of the loop variable `key` in `read_header`. -/
def keyTruthy : Key → Bool
  | Option.none => false
  | some s => s != ""

/-- The value stored for a header line: with `parse_metadata`, the parsed
token dict when the file-header grammar matches, else the bare string. -/
def parsedHeaderValue (parse_metadata : Bool) (value : String) : PyVal :=
  if parse_metadata then
    match parse_file_header_tokens value with
    | some t => .dict (fileTokensDict t)
    | Option.none => .str value
  else .str value

/-- One store step of `read_header` (the tail of the loop body, shared by the
keyed and continuation branches). -/
def readHeaderStore (parse_metadata : Bool) (h : Header) (k : Key) (value : String) :
    Except PyErr Header :=
  match set_header_key_value h k (parsedHeaderValue parse_metadata value) with
  | (hNew, Option.none) => .ok hNew
  | (_, some msg) => .error (.typeError msg)

/-- The loop of `Reader.read_header` over the input lines, carrying the
current key and the accumulated header; stops at the first non-comment line.
The BOM branch is omitted: it fires only for UTF-8 streams whose first line
carries a BOM, which the embedded inputs never do. -/
def read_header_loop (parse_metadata : Bool) (comment delim : String) :
    List String → Key → Header → Except PyErr Header
  | [], _, h => .ok h
  | line :: rest, key, h =>
    if pyStartsWith line comment then
      match pySplitOnce line delim with
      | Option.none =>
        if keyTruthy key then
          match readHeaderStore parse_metadata h key (pyLStrip (pyStrip line) (comment ++ " ")) with
          | .ok hNew => read_header_loop parse_metadata comment delim rest key hNew
          | .error e => .error e
        else .error (.valueError "not enough values to unpack (expected 2, got 1)")
      | some (left, right) =>
        let leftS := pyLStrip (pyStrip left) (comment ++ " ")
        let key2 := if leftS != "" then some leftS else key
        match readHeaderStore parse_metadata h key2 (pyStrip right) with
        | .ok hNew => read_header_loop parse_metadata comment delim rest key2 hNew
        | .error e => .error e
    else .ok h

/-- `Reader.read_header` over the lines of the input. -/
def read_header (lines : List String) (parse_metadata : Bool := true)
    (comment : String := "#") (delim : String := ":") : Except PyErr Header :=
  read_header_loop parse_metadata comment delim lines Option.none []

end XCSVSpec

namespace XCSVSpec

/-- Numeric value of a digit run. -/
def digitsVal (ds : List Char) : Nat :=
  ds.foldl (fun a c => a * 10 + (c.toNat - 48)) 0

/-- Python `int(s)` on a string: surrounding whitespace, an optional sign and
a non-empty digit run (digit-group underscores and non-ASCII digits are not
modelled; no embedded input uses them). -/
def pyIntOfString (s : String) : Option Int :=
  match pyStripL s.data with
  | [] => Option.none
  | c :: rest =>
    let signed : Int × List Char :=
      if c == '-' then (-1, rest) else if c == '+' then (1, rest) else (1, c :: rest)
    if signed.2 ≠ [] && signed.2.all Char.isDigit then
      some (signed.1 * (digitsVal signed.2 : Int))
    else Option.none

/-- Parse the digit runs of a float literal body `ip [. fp] [e/E [sign] ds]`
after the sign has been taken; returns the scaled rational. -/
def pyFloatBody (cs : List Char) : Option Rat :=
  let ip := cs.takeWhile Char.isDigit
  let cs1 := cs.drop ip.length
  let hasDot := match cs1 with
    | '.' :: _ => true
    | _ => false
  let fp := if hasDot then (cs1.drop 1).takeWhile Char.isDigit else []
  let cs2 := if hasDot then (cs1.drop 1).drop fp.length else cs1
  if ip.isEmpty && fp.isEmpty then Option.none
  else
    let mant : Rat := (digitsVal ip : Rat) + (digitsVal fp : Rat) / ((10 : Rat) ^ fp.length)
    match cs2 with
    | [] => some mant
    | e :: tl =>
      if e == 'e' || e == 'E' then
        let signedE : Int × List Char :=
          match tl with
          | '-' :: t => (-1, t)
          | '+' :: t => (1, t)
          | t => (1, t)
        if signedE.2 ≠ [] && signedE.2.all Char.isDigit then
          some (mant * (10 : Rat) ^ (signedE.1 * (digitsVal signedE.2 : Int)))
        else Option.none
      else Option.none

/-- Python `float(s)` on a string: surrounding whitespace, optional sign,
decimal literal with optional exponent (the `inf`/`nan` spellings are not
modelled; no embedded input uses them). -/
def pyFloatOfString (s : String) : Option Rat :=
  match pyStripL s.data with
  | [] => Option.none
  | c :: rest =>
    if c == '-' then (pyFloatBody rest).map (fun q => -q)
    else if c == '+' then pyFloatBody rest
    else pyFloatBody (c :: rest)

/-- Python `int(v)`: parse strings, pass integers through, truncate floats
toward zero; TypeError (None) on dicts, lists and None. -/
def pyIntOf : PyVal → Option Int
  | .str s => pyIntOfString s
  | .int n => some n
  | .float q => some (Int.tdiv q.num (q.den : Int))
  | _ => Option.none

/-- Python `float(v)`: parse strings, widen integers, pass floats through;
TypeError (None) on dicts, lists and None. -/
def pyFloatOf : PyVal → Option Rat
  | .str s => pyFloatOfString s
  | .int n => some (n : Rat)
  | .float q => some q
  | _ => Option.none

/-- `_get_type_cast_value`: try `int`, then `float`, else return the value
as-is (ValueError and TypeError are both caught). -/
def _get_type_cast_value (v : PyVal) : PyVal :=
  match pyIntOf v with
  | some n => .int n
  | Option.none =>
    match pyFloatOf v with
    | some q => .float q
    | Option.none => v

/-- Python `==` on the scalar values that reach comparisons in this package:
numeric equality across int/float, structural equality on strings and None.
Containers compare unequal to scalars, as in Python; container-to-container
comparison does not occur on the embedded paths and is rendered as False. -/
def pyScalarEq : PyVal → PyVal → Bool
  | .int a, .int b => a == b
  | .int a, .float q => ((a : Rat) == q)
  | .float q, .int a => (q == (a : Rat))
  | .float a, .float b => a == b
  | .str a, .str b => a == b
  | .none, .none => true
  | _, _ => false

/-- `XCSV.recombine_list_header_string` with the default separator: join the
list with newlines, or raise TypeError with the list-header context note if an
element is not a string. -/
def recombine_list_header_string (l : List PyVal) : Except PyErr String :=
  if l.all isStr then .ok (String.intercalate "\n" (l.map asStr))
  else .error (.typeError (_get_list_header_exception_context l))

/-- Python `k in v` for a string `k`: key membership for dicts, substring
membership for strings, element equality for lists; TypeError otherwise. -/
def pyContainsStr (k : String) : PyVal → Except PyErr Bool
  | .dict d => .ok (d.any fun p => p.1 == k)
  | .str s => .ok (strContains s k)
  | .list l => .ok (l.any fun e => pyScalarEq e (.str k))
  | _ => .error (.typeError "argument of type is not iterable")

/-- Python `v[k]` for a string `k`: dict lookup (KeyError when absent);
TypeError on strings, lists, None and numbers. -/
def pySubscriptStr (v : PyVal) (k : String) : Except PyErr PyVal :=
  match v with
  | .dict d =>
    match lookupStrKey d k with
    | some x => .ok x
    | Option.none => .error (.keyError k)
  | .none => .error (.typeError "NoneType object is not subscriptable")
  | .str _ => .error (.typeError "string indices must be integers")
  | .list _ => .error (.typeError "list indices must be integers")
  | _ => .error (.typeError "object is not subscriptable")

/-- The metadata dict of an XCSV object: the two recognised sections. -/
structure Metadata where
  header : Header
  column_headers : List (Key × PyVal)

/-- The body of the `try` block of `get_metadata_item_value`: raw lookup,
primary sub-field extraction, list joining, optional numeric cast. -/
def getMetadataItemValueBody (tbl : List (Key × PyVal)) (subdictKey : String)
    (key : String) (cast : Bool) : Except PyErr PyVal :=
  match lookupAssoc tbl (some key) with
  | Option.none => .error (.keyError key)
  | some value =>
    match pyContainsStr subdictKey value with
    | .error e => .error e
    | .ok b =>
      match (if b then pySubscriptStr value subdictKey else .ok value) with
      | .error e => .error e
      | .ok v2 =>
        match v2 with
        | .list l =>
          match recombine_list_header_string l with
          | .error e => .error e
          | .ok s => .ok (if cast then _get_type_cast_value (.str s) else .str s)
        | v3 => .ok (if cast then _get_type_cast_value v3 else v3)

/-- `XCSV.get_metadata_item_value`: unknown sections raise KeyError before the
`try` block; inside it a KeyError yields the default, and other errors
propagate. -/
def get_metadata_item_value (md : Metadata) (key : String)
    (sectionName : String := "header") (dflt : PyVal := PyVal.none) (cast : Bool := false) :
    Except PyErr PyVal :=
  if sectionName == "header" || sectionName == "column_headers" then
    let subdictKey := if sectionName == "header" then "value" else "name"
    let tbl := if sectionName == "header" then md.header else md.column_headers
    match getMetadataItemValueBody tbl subdictKey key cast with
    | .error (.keyError _) => .ok dflt
    | r => r
  else .error (.keyError ("Unknown metadata section: " ++ sectionName))

/-- `XCSV.parse_column_headers`: map each column label to its parsed token
dict; a failed parse stores None (the `try`/`except KeyError` around the dict
assignment never fires). With `parse_metadata=False` the label itself becomes
the name. -/
def columnHeaderEntry (parse_metadata : Bool) (col : String) : PyVal :=
  if parse_metadata then
    match parse_column_header_tokens col with
    | some t => .dict (colTokensDict t)
    | Option.none => PyVal.none
  else .dict [("name", .str col)]

/-- The loop of `parse_column_headers`, building the dict in column order. -/
def parseColumnHeadersLoop (parse_metadata : Bool) :
    List String → List (Key × PyVal) → List (Key × PyVal)
  | [], acc => acc
  | col :: rest, acc =>
    parseColumnHeadersLoop parse_metadata rest
      (updateAssoc acc (some col) (columnHeaderEntry parse_metadata col))

def parse_column_headers (cols : List String) (parse_metadata : Bool := true) :
    List (Key × PyVal) :=
  parseColumnHeadersLoop parse_metadata cols []

end XCSVSpec

namespace XCSVSpec

/-- Python dict-key equality for the label map (its keys are the extracted
name values, scalar strings on every reachable path). -/
instance : BEq PyVal := ⟨pyScalarEq⟩

/-- The loop of `XCSV.get_column_header_name_map`: `col_map[key] = chs[key][name]`
for each entry, in order; subscripting a None entry raises TypeError. -/
def nameMapLoop : List (Key × PyVal) → List (Key × PyVal) → Except PyErr (List (Key × PyVal))
  | [], acc => .ok acc
  | (k, v) :: rest, acc =>
    match pySubscriptStr v "name" with
    | .ok nv => nameMapLoop rest (updateAssoc acc k nv)
    | .error e => .error e

/-- `XCSV.get_column_header_name_map` over the column_headers section. -/
def get_column_header_name_map (chs : List (Key × PyVal)) :
    Except PyErr (List (Key × PyVal)) :=
  nameMapLoop chs []

/-- The loop of `XCSV.get_column_header_label_map`:
`col_map[chs[key][name]] = key` for each entry, in order. -/
def labelMapLoop : List (Key × PyVal) → List (PyVal × Key) → Except PyErr (List (PyVal × Key))
  | [], acc => .ok acc
  | (k, v) :: rest, acc =>
    match pySubscriptStr v "name" with
    | .ok nv => labelMapLoop rest (updateAssoc acc nv k)
    | .error e => .error e

/-- `XCSV.get_column_header_label_map` over the column_headers section. -/
def get_column_header_label_map (chs : List (Key × PyVal)) :
    Except PyErr (List (PyVal × Key)) :=
  labelMapLoop chs []

/-- A table body: rows of scalar cells. -/
abbrev Table := List (List PyVal)

/-- Modelled from the spec: the pandas data pass
`self.data.mask(self.data == missing_value, inplace=True)` is external to the
repository; section 4.5 of the spec describes it as replacing every table
cell whose value equals the sentinel with an absent-value marker, which is
embedded here cellwise with Python scalar equality. -/
def maskTable (t : Table) (sentinel : PyVal) : Table :=
  t.map fun row => row.map fun c => if pyScalarEq c sentinel then PyVal.none else c

/-- The `missing_value` header key (`XCSV.DEFAULTS[missing_value_key]`). -/
def missing_value_key : String := "missing_value"

/-- `Reader._get_type_cast_missing_value`: None when the key is absent, else
the int/float/as-is cast of the raw header value. -/
def _get_type_cast_missing_value (h : Header) : PyVal :=
  match lookupAssoc h (some missing_value_key) with
  | some v => _get_type_cast_value v
  | Option.none => PyVal.none

/-- `Reader.mask_missing_values`: mask with the cast sentinel unless it is
None. -/
def mask_missing_values (h : Header) (t : Table) : Table :=
  match _get_type_cast_missing_value h with
  | PyVal.none => t
  | sentinel => maskTable t sentinel

/-- `Writer.format_header_line`: plain concatenation of the components. -/
def format_header_line (comment key delim value : String) : String :=
  comment ++ key ++ delim ++ value

/-- Rendering of a header-dict key by `str.format` (a None key prints as the
text `None`). -/
def fmtKey : Key → String
  | Option.none => "None"
  | some s => s

/-- `Writer.header_value_as_string`: dicts are recombined through the
file-header templates; anything else is used as-is (formatted). -/
def header_value_as_string : PyVal → String
  | .dict d => reconstruct_file_header_string d
  | v => pyFormatVal v

/-- The lines emitted for one header item by `Writer.reconstruct_header_lines`:
the first list element (or a scalar value) becomes a normal `key delimiter
value` line; each later list element becomes a continuation line that keeps
the delimiter exactly when the stripped delimiter occurs in the rendered
element. -/
def itemLines (comment delim : String) : Key × PyVal → List String
  | (key, .list l) =>
    match l with
    | [] => []
    | e0 :: rest =>
      format_header_line comment (fmtKey key) delim (header_value_as_string e0)
        :: rest.map fun e =>
          format_header_line comment ""
            (if strContains (header_value_as_string e) (pyStrip delim) then delim else "")
            (header_value_as_string e)
  | (key, v) => [format_header_line comment (fmtKey key) delim (header_value_as_string v)]

/-- `Writer.reconstruct_header_lines`: concatenate the lines of every header
item in insertion order. -/
def reconstruct_header_lines (comment delim : String) : Header → List String
  | [] => []
  | item :: rest => itemLines comment delim item ++ reconstruct_header_lines comment delim rest

/-- `Reader.read` at the granularity of input lines: parse the header from
the leading comment lines; the remaining lines are the table body.  Modelled
from the spec for the data pass: the pandas `read_csv`/`to_csv` body
round-trips verbatim under the proviso of claim C7 (no column mixing numeric
types), so the body is carried as its raw lines. -/
def readModel (lines : List String) : Except PyErr (Header × List String) :=
  match read_header lines true "#" ":" with
  | .error e => .error e
  | .ok h => .ok (h, lines.dropWhile fun l => pyStartsWith l "#")

/-- `Writer.write` at the granularity of output lines, with the default
right-padded comment and delimiter: the reconstructed header lines followed by
the table body (spec-modelled as verbatim lines, see `readModel`). -/
def writeModel (h : Header) (body : List String) : List String :=
  reconstruct_header_lines "# " ": " h ++ body

/-- Read-then-write over one file (as its list of lines). -/
def roundTrip (lines : List String) : Except PyErr (List String) :=
  match readModel lines with
  | .error e => .error e
  | .ok (h, body) => .ok (writeModel h body)

end XCSVSpec

namespace XCSVSpec

theorem lookupAssoc_updateAssoc_self [BEq κ] [LawfulBEq κ] (l : List (κ × α)) (k : κ) (v : α) :
    lookupAssoc (updateAssoc l k v) k = some v := by
  induction l with
  | nil => simp [updateAssoc, lookupAssoc]
  | cons p rest ih =>
    by_cases h : p.1 == k
    · simp [updateAssoc, lookupAssoc, h]
    · simp only [updateAssoc]
      cases p
      simp_all [lookupAssoc]

theorem lookupAssoc_updateAssoc_other [BEq κ] [LawfulBEq κ] (l : List (κ × α)) (k k2 : κ)
    (v : α) (hne : ¬(k == k2)) : lookupAssoc (updateAssoc l k v) k2 = lookupAssoc l k2 := by
  induction l with
  | nil => simp_all [updateAssoc, lookupAssoc]
  | cons p rest ih =>
    by_cases h : p.1 == k
    · cases p
      simp_all [updateAssoc, lookupAssoc]
    · cases p
      simp_all [updateAssoc, lookupAssoc]

theorem updateAssoc_of_absent [BEq κ] [LawfulBEq κ] (l : List (κ × α)) (k : κ) (v : α)
    (h : lookupAssoc l k = Option.none) : updateAssoc l k v = l ++ [(k, v)] := by
  induction l with
  | nil => simp [updateAssoc]
  | cons p rest ih =>
    cases p with
    | mk k1 v1 =>
      by_cases hk : k1 == k
      · simp [lookupAssoc, hk] at h
      · simp_all [updateAssoc, lookupAssoc]

theorem lookupAssoc_append_fresh [BEq κ] [LawfulBEq κ] (l : List (κ × α)) (k : κ) (x : α)
    (h : lookupAssoc l k = Option.none) : lookupAssoc (l ++ [(k, x)]) k = some x := by
  induction l with
  | nil => simp [lookupAssoc]
  | cons p rest ih =>
    cases p with
    | mk k1 v1 =>
      by_cases hk : k1 == k
      · simp [lookupAssoc, hk] at h
      · simp_all [lookupAssoc]

theorem updateAssoc_append_fresh [BEq κ] [LawfulBEq κ] (l : List (κ × α)) (k : κ) (x y : α)
    (h : lookupAssoc l k = Option.none) :
    updateAssoc (l ++ [(k, x)]) k y = l ++ [(k, y)] := by
  induction l with
  | nil => simp [updateAssoc]
  | cons p rest ih =>
    cases p with
    | mk k1 v1 =>
      by_cases hk : k1 == k
      · simp [lookupAssoc, hk] at h
      · simp_all [updateAssoc, lookupAssoc]

theorem listIsPrefix_self_append (x t : List Char) : listIsPrefix x (x ++ t) = true := by
  induction x with
  | nil => simp [listIsPrefix]
  | cons c cs ih => simp [listIsPrefix, ih]

theorem listHasInfix_of_isPrefix (x l : List Char) (h : listIsPrefix x l = true) :
    listHasInfix x l = true := by
  cases l with
  | nil =>
    cases x with
    | nil => simp [listHasInfix]
    | cons c cs => simp [listIsPrefix] at h
  | cons c rest => simp [listHasInfix, h]

theorem listHasInfix_cons (x : List Char) (c : Char) (rest : List Char)
    (h : listHasInfix x rest = true) : listHasInfix x (c :: rest) = true := by
  simp [listHasInfix, h]

theorem listHasInfix_append_mid (a b x : List Char) :
    listHasInfix x (a ++ (x ++ b)) = true := by
  induction a with
  | nil => exact listHasInfix_of_isPrefix x (x ++ b) (listIsPrefix_self_append x b)
  | cons c cs ih => exact listHasInfix_cons x c (cs ++ (x ++ b)) ih

theorem strContains_append_mid (a b x : String) :
    strContains (a ++ x ++ b) x = true := by
  have h : (a ++ x ++ b).data = a.data ++ (x.data ++ b.data) := by
    simp [String.data_append]
  simp only [strContains, h]
  exact listHasInfix_append_mid a.data b.data x.data

theorem strContains_append_right (a x : String) :
    strContains (a ++ x) x = true := by
  have h : (a ++ x).data = a.data ++ (x.data ++ []) := by
    simp [String.data_append]
  simp only [strContains, h]
  exact listHasInfix_append_mid a.data [] x.data

/-- Claim C2: the five grammar-totality vectors of `parse_column_header_tokens`:
the empty string and a bare parenthesised clause fail to match; a single space
yields an empty name; `a (u)` and `a (u) [n]` parse name, units and notes. -/
theorem C2_column_grammar_totality :
    parse_column_header_tokens "" = Option.none
    ∧ parse_column_header_tokens " " = some ⟨"", Option.none, Option.none⟩
    ∧ parse_column_header_tokens "a (u)" = some ⟨"a", some "u", Option.none⟩
    ∧ parse_column_header_tokens "(u)" = Option.none
    ∧ parse_column_header_tokens "a (u) [n]" = some ⟨"a", some "u", some "n"⟩ := by
  refine ⟨by decide, by decide, by decide, by decide, by decide⟩

/-- Claim C3: reading `# id: 1`, `# summary: A`, `# A second line.` with
comment `#` and delimiter `:` accumulates the continuation under `summary` as
the two-element list; a fourth escaped line `# : contains: a delimiter` grows
the list to three elements, the third being the text after the leading
delimiter. -/
theorem C3_continuation_accumulation :
    read_header ["# id: 1", "# summary: A", "# A second line."] true "#" ":" =
      .ok [(some "id", PyVal.str "1"),
           (some "summary", PyVal.list [PyVal.str "A", PyVal.str "A second line."])]
    ∧ read_header ["# id: 1", "# summary: A", "# A second line.",
                   "# : contains: a delimiter"] true "#" ":" =
      .ok [(some "id", PyVal.str "1"),
           (some "summary", PyVal.list [PyVal.str "A", PyVal.str "A second line.",
                                        PyVal.str "contains: a delimiter"])] :=
  ⟨rfl, rfl⟩

/-- Claim C6, counterexample: for the header pair `elevation = 1897 (m a.s.l.)`
the underlying value is a structured pair, yet `cast=true` returns the integer
1897 while `cast=false` returns the string, so the cast does modify the result
for a pair-valued key. -/
theorem C6_counterexample :
    get_metadata_item_value
        ⟨[(some "elevation", PyVal.dict (fileTokensDict ⟨"1897", "m a.s.l."⟩))], []⟩
        "elevation" "header" PyVal.none true ≠
      get_metadata_item_value
        ⟨[(some "elevation", PyVal.dict (fileTokensDict ⟨"1897", "m a.s.l."⟩))], []⟩
        "elevation" "header" PyVal.none false := by
  intro h
  have h2 : Except.ok (ε := PyErr) (PyVal.int 1897) = Except.ok (PyVal.str "1897") := h
  injection h2 with h3
  exact PyVal.noConfusion h3

/-- Claim C7, counterexample: a well-formed file whose second header line uses
the escaped continuation form although its value contains no delimiter; the
reader accepts it, but the writer re-emits the continuation in simple form, so
write-of-read differs from the input bytewise. -/
theorem C7_counterexample :
    roundTrip ["# summary: A", "# : B.", "time", "1"] =
      .ok ["# summary: A", "# B.", "time", "1"]
    ∧ ["# summary: A", "# B.", "time", "1"] ≠ ["# summary: A", "# : B.", "time", "1"] :=
  ⟨rfl, by decide⟩

end XCSVSpec

namespace XCSVSpec

theorem strContains_of_decomp (hay x : String) (a b : List Char)
    (h : hay.data = a ++ (x.data ++ b)) : strContains hay x = true := by
  simp only [strContains, h]
  exact listHasInfix_append_mid a b x.data

/-- The value previously stored under a key holds no token dict (scalar keys:
not a dict; list keys: no dict element). -/
def priorNoDict (h : Header) (k : Key) : Bool :=
  match lookupAssoc h k with
  | some (PyVal.list l) => l.all fun e => !isDict e
  | some prev => !isDict prev
  | Option.none => true

/-- Claim C1: set-or-append accumulation of `set_header_key_value`.  A fresh
key stores the scalar/pair directly with no error; a key holding a scalar or
pair is converted to the two-element list `[previous, new]`; a key holding a
list gets the value appended; an error is raised exactly when the new value is
a dict and lands in a list, and (when the prior content is dict-free) its
message contains both the reconstructed offending line and its parsed
components. -/
theorem C1_header_set_or_append (h : Header) (k : Key) (v : PyVal)
    (hscal : isList v = false) :
    (lookupAssoc h k = Option.none →
       set_header_key_value h k v = (h ++ [(k, v)], Option.none))
    ∧ (∀ prev, lookupAssoc h k = some prev → isList prev = false →
         (set_header_key_value h k v).1 = updateAssoc h k (PyVal.list [prev, v]))
    ∧ (∀ l, lookupAssoc h k = some (PyVal.list l) →
         (set_header_key_value h k v).1 = updateAssoc h k (PyVal.list (l ++ [v])))
    ∧ ((set_header_key_value h k v).2.isSome = (isDict v && (lookupAssoc h k).isSome))
    ∧ (∀ d msg, v = PyVal.dict d → priorNoDict h k = true →
         (set_header_key_value h k v).2 = some msg →
         strContains msg (reconstruct_file_header_string d) = true
         ∧ strContains msg (pyReprDict d) = true) := by
  refine ⟨?_, ?_, ?_, ?_, ?_⟩
  · intro hl
    have hupd := updateAssoc_of_absent h k v hl
    cases v <;> simp_all [set_header_key_value, isList]
  · intro prev hl hprev
    cases prev <;> cases v <;> simp_all [set_header_key_value, isList]
  · intro l hl
    cases v <;> simp [set_header_key_value, hl]
  · cases hl : lookupAssoc h k with
    | none => cases v <;> simp_all [set_header_key_value, isList, isDict]
    | some prev => cases prev <;> cases v <;> simp_all [set_header_key_value, isList, isDict]
  · intro d msg hv hnd herr
    subst hv
    have hcont : ∀ l0 : List PyVal, (l0.filter isDict = []) →
        (_get_list_header_exception_context (l0 ++ [PyVal.dict d]) = msg →
        strContains msg (reconstruct_file_header_string d) = true
        ∧ strContains msg (pyReprDict d) = true) := by
      intro l0 hfilter hmsg
      rw [_get_list_header_exception_context] at hmsg
      rw [List.filter_append, hfilter] at hmsg
      simp only [List.nil_append, List.filter, isDict, List.head?] at hmsg
      subst hmsg
      constructor
      · refine strContains_of_decomp _ _ (listHeaderBaseNote ++ "\nThe cause is this line: ").data
          ("\nwhich has been parsed as: " ++ pyReprDict d).data ?_
        simp [String.data_append, List.append_assoc]
      · refine strContains_of_decomp _ _
          (listHeaderBaseNote ++ "\nThe cause is this line: " ++
            reconstruct_file_header_string d ++ "\nwhich has been parsed as: ").data [] ?_
        simp [String.data_append, List.append_assoc]
    cases hl : lookupAssoc h k with
    | none => simp [set_header_key_value, hl] at herr
    | some prev =>
      cases prev with
      | list l =>
        simp only [set_header_key_value, hl] at herr
        simp only [priorNoDict, hl, List.all_eq_true] at hnd
        have hfilter : l.filter isDict = [] := by
          rw [List.filter_eq_nil_iff]
          intro a ha
          have := hnd a ha
          simp_all
        exact hcont l hfilter (Option.some.inj herr)
      | str s =>
        simp only [set_header_key_value, hl] at herr
        exact hcont [PyVal.str s] (by simp [List.filter, isDict]) (Option.some.inj herr)
      | int n =>
        simp only [set_header_key_value, hl] at herr
        exact hcont [PyVal.int n] (by simp [List.filter, isDict]) (Option.some.inj herr)
      | float q =>
        simp only [set_header_key_value, hl] at herr
        exact hcont [PyVal.float q] (by simp [List.filter, isDict]) (Option.some.inj herr)
      | dict d0 =>
        simp [priorNoDict, hl, isDict] at hnd
      | none =>
        simp only [set_header_key_value, hl] at herr
        exact hcont [PyVal.none] (by simp [List.filter, isDict]) (Option.some.inj herr)

/-- Claim C1 witness: appending the pair parsed from `v (u)` to the
two-element text list under `summary` raises, with the reconstructed line and
its parsed components in the message. -/
theorem C1_header_set_or_append_witness :
    isList (PyVal.dict (fileTokensDict ⟨"v", "u"⟩)) = false
    ∧ priorNoDict [(some "summary", PyVal.list [PyVal.str "A", PyVal.str "B"])]
        (some "summary") = true
    ∧ (∀ msg,
        (set_header_key_value [(some "summary", PyVal.list [PyVal.str "A", PyVal.str "B"])]
          (some "summary") (PyVal.dict (fileTokensDict ⟨"v", "u"⟩))).2 = some msg →
        strContains msg (reconstruct_file_header_string (fileTokensDict ⟨"v", "u"⟩)) = true
        ∧ strContains msg (pyReprDict (fileTokensDict ⟨"v", "u"⟩)) = true) := by
  refine ⟨rfl, rfl, ?_⟩
  intro msg hmsg
  exact (C1_header_set_or_append
    [(some "summary", PyVal.list [PyVal.str "A", PyVal.str "B"])] (some "summary")
    (PyVal.dict (fileTokensDict ⟨"v", "u"⟩)) rfl).2.2.2.2
    (fileTokensDict ⟨"v", "u"⟩) msg rfl rfl hmsg

/-- Claim C8: whenever `set_header_key_value` raises the list-header
TypeError, the header has already been mutated: the new value is a dict, it
sits as the last element of the list now stored under the key, and a
previously scalar-valued key has already been converted to the two-element
list; nothing is rolled back. -/
theorem C8_mutated_before_error (h : Header) (k : Key) (v : PyVal)
    (herr : (set_header_key_value h k v).2.isSome = true) :
    isDict v = true
    ∧ (∃ l, lookupAssoc ((set_header_key_value h k v).1) k = some (PyVal.list l)
        ∧ l.getLast? = some v)
    ∧ (∀ prev, lookupAssoc h k = some prev → isList prev = false →
         lookupAssoc ((set_header_key_value h k v).1) k = some (PyVal.list [prev, v])) := by
  cases hl : lookupAssoc h k with
  | none =>
    exfalso
    cases v <;> simp_all [set_header_key_value]
  | some prev =>
    have hupd : ∀ nv : PyVal, lookupAssoc (updateAssoc h k nv) k = some nv :=
      fun nv => lookupAssoc_updateAssoc_self h k nv
    cases prev with
    | list l =>
      cases v <;> simp_all [set_header_key_value, isDict, isList]
    | str s =>
      cases v <;> simp_all [set_header_key_value, isDict, isList]
    | int n =>
      cases v <;> simp_all [set_header_key_value, isDict, isList]
    | float q =>
      cases v <;> simp_all [set_header_key_value, isDict, isList]
    | dict d0 =>
      cases v <;> simp_all [set_header_key_value, isDict, isList]
    | none =>
      cases v <;> simp_all [set_header_key_value, isDict, isList]

/-- Claim C8 witness: converting the scalar `summary` to a list by a pair
value leaves the pair stored as the second element while the error is
raised. -/
theorem C8_mutated_before_error_witness :
    (set_header_key_value [(some "summary", PyVal.str "A")] (some "summary")
        (PyVal.dict (fileTokensDict ⟨"v", "u"⟩))).2.isSome = true
    ∧ lookupAssoc ((set_header_key_value [(some "summary", PyVal.str "A")] (some "summary")
        (PyVal.dict (fileTokensDict ⟨"v", "u"⟩))).1) (some "summary") =
      some (PyVal.list [PyVal.str "A", PyVal.dict (fileTokensDict ⟨"v", "u"⟩)]) :=
  ⟨rfl,
   (C8_mutated_before_error [(some "summary", PyVal.str "A")] (some "summary")
      (PyVal.dict (fileTokensDict ⟨"v", "u"⟩)) rfl).2.2 (PyVal.str "A") rfl rfl⟩

end XCSVSpec

namespace XCSVSpec

theorem itemLines_chunk_of_mem (comment delim : String) (h : Header) (item : Key × PyVal)
    (hmem : item ∈ h) :
    List.IsInfix (itemLines comment delim item) (reconstruct_header_lines comment delim h) := by
  induction h with
  | nil => cases hmem
  | cons p rest ih =>
    rcases List.mem_cons.mp hmem with heq | hmem2
    · subst heq
      exact ⟨[], reconstruct_header_lines comment delim rest, by simp [reconstruct_header_lines]⟩
    · obtain ⟨s, t, hst⟩ := ih hmem2
      exact ⟨itemLines comment delim p ++ s, t, by
        simp [reconstruct_header_lines, ← hst, List.append_assoc]⟩

/-- Claim C4: for a list-valued header item, `reconstruct_header_lines` emits
its lines contiguously: the first element as a normal `key delimiter value`
line, and every subsequent element as an escaped continuation (comment, empty
key, the delimiter, the value) exactly when the stripped delimiter occurs in
that element text, else as a simple continuation (comment and value, no
delimiter). -/
theorem C4_writer_conditional_escaping (comment delim : String) (h : Header) (key : Key)
    (e0 : PyVal) (rest : List PyVal)
    (hmem : (key, PyVal.list (e0 :: rest)) ∈ h) :
    List.IsInfix (itemLines comment delim (key, PyVal.list (e0 :: rest)))
        (reconstruct_header_lines comment delim h)
    ∧ itemLines comment delim (key, PyVal.list (e0 :: rest)) =
        format_header_line comment (fmtKey key) delim (header_value_as_string e0)
          :: rest.map fun e =>
            if strContains (header_value_as_string e) (pyStrip delim) = true then
              format_header_line comment "" delim (header_value_as_string e)
            else format_header_line comment "" "" (header_value_as_string e) := by
  refine ⟨itemLines_chunk_of_mem comment delim h _ hmem, ?_⟩
  simp only [itemLines]
  refine congrArg _ (List.map_congr_left ?_)
  intro e _
  by_cases hc : strContains (header_value_as_string e) (pyStrip delim) = true
  · simp [hc]
  · simp [hc]

/-- Claim C4 witness: a two-element summary list, one element with the
delimiter and the header holding one more scalar item. -/
theorem C4_writer_conditional_escaping_witness :
    (some "summary",
      PyVal.list [PyVal.str "A", PyVal.str "a URL https://d", PyVal.str "plain"]) ∈
      ([(some "id", PyVal.str "1"),
        (some "summary",
          PyVal.list [PyVal.str "A", PyVal.str "a URL https://d", PyVal.str "plain"])] :
        Header)
    ∧ itemLines "# " ": " (some "summary",
        PyVal.list [PyVal.str "A", PyVal.str "a URL https://d", PyVal.str "plain"]) =
        format_header_line "# " (fmtKey (some "summary")) ": " (header_value_as_string (PyVal.str "A"))
          :: [PyVal.str "a URL https://d", PyVal.str "plain"].map fun e =>
            if strContains (header_value_as_string e) (pyStrip ": ") = true then
              format_header_line "# " "" ": " (header_value_as_string e)
            else format_header_line "# " "" "" (header_value_as_string e) := by
  have hmem : (some "summary",
      PyVal.list [PyVal.str "A", PyVal.str "a URL https://d", PyVal.str "plain"]) ∈
      ([(some "id", PyVal.str "1"),
        (some "summary",
          PyVal.list [PyVal.str "A", PyVal.str "a URL https://d", PyVal.str "plain"])] :
        Header) := by
    exact List.mem_cons_of_mem _ (List.mem_singleton.mpr rfl)
  exact ⟨hmem, (C4_writer_conditional_escaping "# " ": "
    [(some "id", PyVal.str "1"),
     (some "summary",
       PyVal.list [PyVal.str "A", PyVal.str "a URL https://d", PyVal.str "plain"])]
    (some "summary") (PyVal.str "A") [PyVal.str "a URL https://d", PyVal.str "plain"]
    hmem).2⟩

/-- Claim C5: with a `missing_value` header entry whose value is a structured
pair or a list (so that the int/float casts both fail and the sentinel is not
a plain scalar), and likewise with no `missing_value` entry at all, the table
of scalar cells comes back from `mask_missing_values` unmodified. -/
theorem C5_mask_skip_rules (h : Header) (t : Table)
    (hcells : ∀ row ∈ t, ∀ c ∈ row, isDict c = false ∧ isList c = false) :
    (∀ d, lookupAssoc h (some missing_value_key) = some (PyVal.dict d) →
       mask_missing_values h t = t)
    ∧ (∀ l, lookupAssoc h (some missing_value_key) = some (PyVal.list l) →
       mask_missing_values h t = t)
    ∧ (lookupAssoc h (some missing_value_key) = Option.none →
       mask_missing_values h t = t) := by
  have hmask : ∀ sentinel : PyVal, isDict sentinel = true ∨ isList sentinel = true →
      maskTable t sentinel = t := by
    intro sentinel hs
    unfold maskTable
    have hrowEq : ∀ row ∈ t,
        (row.map fun c => if pyScalarEq c sentinel then PyVal.none else c) = row := by
      intro row hr
      have hmapId : (row.map fun c => if pyScalarEq c sentinel then PyVal.none else c) =
          row.map id := by
        apply List.map_congr_left
        intro c hc
        have hcs := hcells row hr c hc
        have hfalse : pyScalarEq c sentinel = false := by
          rcases hs with hd | hl
          · cases sentinel <;> simp [isDict] at hd <;>
              cases c <;> simp_all [pyScalarEq, isDict, isList]
          · cases sentinel <;> simp [isList] at hl <;>
              cases c <;> simp_all [pyScalarEq, isDict, isList]
        simp [hfalse]
      rw [hmapId, List.map_id]
    have htot : (t.map fun row =>
        row.map fun c => if pyScalarEq c sentinel then PyVal.none else c) = t.map id :=
      List.map_congr_left hrowEq
    rw [htot, List.map_id]
  refine ⟨?_, ?_, ?_⟩
  · intro d hl
    simp only [mask_missing_values, _get_type_cast_missing_value, hl, _get_type_cast_value,
      pyIntOf, pyFloatOf]
    exact hmask (PyVal.dict d) (Or.inl rfl)
  · intro l hl
    simp only [mask_missing_values, _get_type_cast_missing_value, hl, _get_type_cast_value,
      pyIntOf, pyFloatOf]
    exact hmask (PyVal.list l) (Or.inr rfl)
  · intro hl
    simp [mask_missing_values, _get_type_cast_missing_value, hl]

/-- Claim C5 witness: a pair-valued sentinel, a list-valued sentinel and an
absent sentinel all leave a concrete two-row table unmodified. -/
theorem C5_mask_skip_rules_witness :
    mask_missing_values
        [(some "missing_value", PyVal.dict (fileTokensDict ⟨"-999.99", "invalid"⟩))]
        [[PyVal.int 2012, PyVal.str "-999.99"], [PyVal.int 2011, PyVal.none]] =
      [[PyVal.int 2012, PyVal.str "-999.99"], [PyVal.int 2011, PyVal.none]]
    ∧ mask_missing_values
        [(some "missing_value", PyVal.list [PyVal.str "-999.99", PyVal.str "-999.99"])]
        [[PyVal.int 2012, PyVal.str "-999.99"], [PyVal.int 2011, PyVal.none]] =
      [[PyVal.int 2012, PyVal.str "-999.99"], [PyVal.int 2011, PyVal.none]]
    ∧ mask_missing_values [(some "id", PyVal.str "1")]
        [[PyVal.int 2012, PyVal.str "-999.99"], [PyVal.int 2011, PyVal.none]] =
      [[PyVal.int 2012, PyVal.str "-999.99"], [PyVal.int 2011, PyVal.none]] := by
  have hcells : ∀ row ∈ ([[PyVal.int 2012, PyVal.str "-999.99"],
      [PyVal.int 2011, PyVal.none]] : Table), ∀ c ∈ row, isDict c = false ∧ isList c = false := by
    intro row hrow c hc
    rcases List.mem_cons.mp hrow with h1 | h1
    · subst h1
      rcases List.mem_cons.mp hc with h2 | h2
      · subst h2
        exact ⟨rfl, rfl⟩
      · rcases List.mem_singleton.mp h2 with h3
        subst h3
        exact ⟨rfl, rfl⟩
    · rcases List.mem_singleton.mp h1 with h3
      subst h3
      rcases List.mem_cons.mp hc with h2 | h2
      · subst h2
        exact ⟨rfl, rfl⟩
      · rcases List.mem_singleton.mp h2 with h3
        subst h3
        exact ⟨rfl, rfl⟩
  refine ⟨?_, ?_, ?_⟩
  · exact (C5_mask_skip_rules _ _ hcells).1 (fileTokensDict ⟨"-999.99", "invalid"⟩) rfl
  · exact (C5_mask_skip_rules _ _ hcells).2.1 [PyVal.str "-999.99", PyVal.str "-999.99"] rfl
  · exact (C5_mask_skip_rules _ _ hcells).2.2 rfl

/-- Claim C9: a header key whose stored value is a plain string containing the
substring `value` makes `get_metadata_item_value` raise TypeError: the
`in` containment test succeeds on the string, and the subsequent string
subscription with a string key fails. -/
theorem C9_primary_field_substring_pitfall (md : Metadata) (key s : String)
    (dflt : PyVal) (cast : Bool)
    (hlk : lookupAssoc md.header (some key) = some (PyVal.str s))
    (hsub : strContains s "value" = true) :
    get_metadata_item_value md key "header" dflt cast =
      .error (.typeError "string indices must be integers") := by
  simp [get_metadata_item_value, getMetadataItemValueBody, hlk, pyContainsStr, hsub,
    pySubscriptStr]

/-- Claim C9 witness: the scalar string `the value is 5`. -/
theorem C9_primary_field_substring_pitfall_witness :
    strContains "the value is 5" "value" = true
    ∧ get_metadata_item_value ⟨[(some "k", PyVal.str "the value is 5")], []⟩ "k"
        "header" PyVal.none false =
      .error (.typeError "string indices must be integers") :=
  ⟨rfl, C9_primary_field_substring_pitfall ⟨[(some "k", PyVal.str "the value is 5")], []⟩
    "k" "the value is 5" PyVal.none false rfl rfl⟩

end XCSVSpec

namespace XCSVSpec

theorem lookupAssoc_mem [BEq κ] [LawfulBEq κ] (l : List (κ × α)) (k : κ) (v : α)
    (h : lookupAssoc l k = some v) : (k, v) ∈ l := by
  induction l with
  | nil => simp [lookupAssoc] at h
  | cons p rest ih =>
    cases p with
    | mk k1 v1 =>
      by_cases hk : k1 == k
      · simp [lookupAssoc, hk] at h
        simp_all
      · simp [lookupAssoc, hk] at h
        exact List.mem_cons_of_mem _ (ih h)

theorem any_beq_of_lookupAssoc (d : List (String × PyVal)) (k : String)
    (h : (lookupAssoc d k).isSome = true) : (d.any fun p => p.1 == k) = true := by
  induction d with
  | nil => simp [lookupAssoc] at h
  | cons p rest ih =>
    cases p with
    | mk k1 v1 =>
      by_cases hk : k1 == k
      · simp [hk]
      · simp only [lookupAssoc, hk] at h
        simp only [Bool.false_eq_true, if_neg] at h
        simp [hk, ih h]

/-- An entry stored by `parse_column_headers` is either None (failed parse) or
a dict that contains the `name` key. -/
def goodColEntry (v : PyVal) : Prop :=
  v = PyVal.none ∨ ∃ d, v = PyVal.dict d ∧ (lookupStrKey d "name").isSome = true

theorem columnHeaderEntry_good (pm : Bool) (col : String) :
    goodColEntry (columnHeaderEntry pm col) := by
  unfold columnHeaderEntry
  cases pm with
  | false => exact Or.inr ⟨[("name", PyVal.str col)], rfl, rfl⟩
  | true =>
    cases hp : parse_column_header_tokens col with
    | none => exact Or.inl (by simp [hp])
    | some t => exact Or.inr ⟨colTokensDict t, by simp [hp], rfl⟩

theorem updateAssoc_all_entries [BEq κ] (P : α → Prop) (l : List (κ × α)) (k : κ) (v : α)
    (hl : ∀ p ∈ l, P p.2) (hv : P v) : ∀ p ∈ updateAssoc l k v, P p.2 := by
  induction l with
  | nil =>
    intro p hp
    simp [updateAssoc] at hp
    subst hp
    exact hv
  | cons q rest ih =>
    intro p hp
    by_cases hk : q.1 == k
    · simp [updateAssoc, hk] at hp
      rcases hp with h1 | h1
      · subst h1
        exact hv
      · exact hl p (List.mem_cons_of_mem _ h1)
    · cases q with
      | mk k1 v1 =>
        simp only [updateAssoc, hk] at hp
        simp only [Bool.false_eq_true, if_neg] at hp
        rcases List.mem_cons.mp hp with h1 | h1
        · subst h1
          exact hl (k1, v1) (List.mem_cons_self _ _)
        · exact ih (fun p2 hp2 => hl p2 (List.mem_cons_of_mem _ hp2)) p h1

theorem parseColumnHeadersLoop_entries_good (pm : Bool) (cols : List String)
    (acc : List (Key × PyVal)) (hacc : ∀ p ∈ acc, goodColEntry p.2) :
    ∀ p ∈ parseColumnHeadersLoop pm cols acc, goodColEntry p.2 := by
  induction cols generalizing acc with
  | nil => exact hacc
  | cons c rest ih =>
    exact ih _ (updateAssoc_all_entries goodColEntry acc (some c)
      (columnHeaderEntry pm c) hacc (columnHeaderEntry_good pm c))

theorem parseColumnHeadersLoop_lookup_of_not_mem (pm : Bool) (cols : List String)
    (acc : List (Key × PyVal)) (col : String) (hcol : col ∉ cols) :
    lookupAssoc (parseColumnHeadersLoop pm cols acc) (some col) =
      lookupAssoc acc (some col) := by
  induction cols generalizing acc with
  | nil => rfl
  | cons c rest ih =>
    have hc : c ≠ col := fun he => hcol (he ▸ List.mem_cons_self _ _)
    have hrest : col ∉ rest := fun hm => hcol (List.mem_cons_of_mem _ hm)
    simp only [parseColumnHeadersLoop]
    rw [ih _ hrest]
    exact lookupAssoc_updateAssoc_other acc (some c) (some col)
      (columnHeaderEntry pm c) (by simp [hc])

theorem parseColumnHeadersLoop_lookup_mem (pm : Bool) (cols : List String)
    (acc : List (Key × PyVal)) (col : String) (hcol : col ∈ cols) :
    lookupAssoc (parseColumnHeadersLoop pm cols acc) (some col) =
      some (columnHeaderEntry pm col) := by
  induction cols generalizing acc with
  | nil => cases hcol
  | cons c rest ih =>
    by_cases hm : col ∈ rest
    · exact ih _ hm
    · have hc : c = col := by
        rcases List.mem_cons.mp hcol with h1 | h1
        · exact h1.symm
        · exact absurd h1 hm
      subst hc
      simp only [parseColumnHeadersLoop]
      rw [parseColumnHeadersLoop_lookup_of_not_mem pm rest _ c hm]
      exact lookupAssoc_updateAssoc_self acc (some c) (columnHeaderEntry pm c)

theorem nameMapLoop_error_of_none (chs : List (Key × PyVal)) (acc : List (Key × PyVal))
    (hgood : ∀ p ∈ chs, goodColEntry p.2) (hnone : ∃ p ∈ chs, p.2 = PyVal.none) :
    nameMapLoop chs acc = .error (.typeError "NoneType object is not subscriptable") := by
  induction chs generalizing acc with
  | nil => simp at hnone
  | cons p rest ih =>
    rcases hgood p (List.mem_cons_self _ _) with hpn | ⟨d, hpd, hname⟩
    · cases p with
      | mk k v =>
        simp only at hpn
        subst hpn
        simp [nameMapLoop, pySubscriptStr]
    · cases p with
      | mk k v =>
        simp only at hpd
        subst hpd
        obtain ⟨x, hx⟩ := Option.isSome_iff_exists.mp hname
        simp only [nameMapLoop, pySubscriptStr, lookupStrKey] at hx ⊢
        rw [hx]
        refine ih _ (fun q hq => hgood q (List.mem_cons_of_mem _ hq)) ?_
        rcases hnone with ⟨q, hq, hqn⟩
        rcases List.mem_cons.mp hq with h1 | h1
        · rw [h1] at hqn
          simp at hqn
        · exact ⟨q, h1, hqn⟩

theorem labelMapLoop_error_of_none (chs : List (Key × PyVal)) (acc : List (PyVal × Key))
    (hgood : ∀ p ∈ chs, goodColEntry p.2) (hnone : ∃ p ∈ chs, p.2 = PyVal.none) :
    labelMapLoop chs acc = .error (.typeError "NoneType object is not subscriptable") := by
  induction chs generalizing acc with
  | nil => simp at hnone
  | cons p rest ih =>
    rcases hgood p (List.mem_cons_self _ _) with hpn | ⟨d, hpd, hname⟩
    · cases p with
      | mk k v =>
        simp only at hpn
        subst hpn
        simp [labelMapLoop, pySubscriptStr]
    · cases p with
      | mk k v =>
        simp only at hpd
        subst hpd
        obtain ⟨x, hx⟩ := Option.isSome_iff_exists.mp hname
        simp only [labelMapLoop, pySubscriptStr, lookupStrKey] at hx ⊢
        rw [hx]
        refine ih _ (fun q hq => hgood q (List.mem_cons_of_mem _ hq)) ?_
        rcases hnone with ⟨q, hq, hqn⟩
        rcases List.mem_cons.mp hq with h1 | h1
        · rw [h1] at hqn
          simp at hqn
        · exact ⟨q, h1, hqn⟩

/-- Claim C10: with metadata parsing enabled, a column label that fails the
column-header grammar is stored as a None entry in the column-headers map, and
both the name map and the label map over such a map raise TypeError. -/
theorem C10_unparseable_columns (cols : List String) (col : String)
    (hmem : col ∈ cols) (hfail : parse_column_header_tokens col = Option.none) :
    lookupAssoc (parse_column_headers cols true) (some col) = some PyVal.none
    ∧ get_column_header_name_map (parse_column_headers cols true) =
        .error (.typeError "NoneType object is not subscriptable")
    ∧ get_column_header_label_map (parse_column_headers cols true) =
        .error (.typeError "NoneType object is not subscriptable") := by
  have hentry : columnHeaderEntry true col = PyVal.none := by
    simp [columnHeaderEntry, hfail]
  have hlk : lookupAssoc (parse_column_headers cols true) (some col) = some PyVal.none := by
    rw [parse_column_headers, parseColumnHeadersLoop_lookup_mem true cols [] col hmem, hentry]
  have hgood : ∀ p ∈ parse_column_headers cols true, goodColEntry p.2 :=
    parseColumnHeadersLoop_entries_good true cols [] (by intro p hp; cases hp)
  have hnone : ∃ p ∈ parse_column_headers cols true, p.2 = PyVal.none :=
    ⟨(some col, PyVal.none), lookupAssoc_mem _ _ _ hlk, rfl⟩
  exact ⟨hlk, nameMapLoop_error_of_none _ [] hgood hnone,
    labelMapLoop_error_of_none _ [] hgood hnone⟩

/-- Claim C10 witness: the column list with the unparseable label `(u)`. -/
theorem C10_unparseable_columns_witness :
    parse_column_header_tokens "(u)" = Option.none
    ∧ lookupAssoc (parse_column_headers ["(u)", "a"] true) (some "(u)") = some PyVal.none
    ∧ get_column_header_name_map (parse_column_headers ["(u)", "a"] true) =
        .error (.typeError "NoneType object is not subscriptable") := by
  have h := C10_unparseable_columns ["(u)", "a"] "(u)" (by decide) (by decide)
  exact ⟨by decide, h.1, h.2.1⟩

end XCSVSpec

namespace XCSVSpec

/-- Claim C6, amended: `get_metadata_item_value` returns the primary `value`
sub-field of a header pair, newline-joins list values, and with `cast=true`
tries an integer parse then a floating-point parse of the resulting scalar
string, else leaves it unchanged.  The coercion applies to the extracted
scalar whatever produced it: in particular for a pair-valued key the result
with `cast=true` is the numeric cast of the primary sub-field, not the
unmodified value, and for a list-valued key it is the cast of the joined
string. -/
theorem C6_value_cast_semantics (md : Metadata) (key : String) (dflt : PyVal) :
    (∀ d s, lookupAssoc md.header (some key) = some (PyVal.dict d) →
       lookupStrKey d "value" = some (PyVal.str s) →
       get_metadata_item_value md key "header" dflt false = .ok (PyVal.str s)
       ∧ get_metadata_item_value md key "header" dflt true =
           .ok (_get_type_cast_value (PyVal.str s)))
    ∧ (∀ l, lookupAssoc md.header (some key) = some (PyVal.list l) →
       l.all isStr = true →
       (l.any fun e => pyScalarEq e (PyVal.str "value")) = false →
       get_metadata_item_value md key "header" dflt false =
         .ok (PyVal.str (String.intercalate "\n" (l.map asStr)))
       ∧ get_metadata_item_value md key "header" dflt true =
           .ok (_get_type_cast_value (PyVal.str (String.intercalate "\n" (l.map asStr)))))
    ∧ (∀ s, lookupAssoc md.header (some key) = some (PyVal.str s) →
       strContains s "value" = false →
       get_metadata_item_value md key "header" dflt false = .ok (PyVal.str s)
       ∧ get_metadata_item_value md key "header" dflt true =
           .ok (match pyIntOfString s with
                | some n => PyVal.int n
                | Option.none =>
                  match pyFloatOfString s with
                  | some q => PyVal.float q
                  | Option.none => PyVal.str s)) := by
  refine ⟨?_, ?_, ?_⟩
  · intro d s hlk hval
    have hany : (d.any fun p => p.1 == "value") = true :=
      any_beq_of_lookupAssoc d "value" (by simp [lookupStrKey] at hval ⊢; simp [hval])
    constructor
    · simp [get_metadata_item_value, getMetadataItemValueBody, hlk, pyContainsStr, hany,
        pySubscriptStr, hval]
    · simp [get_metadata_item_value, getMetadataItemValueBody, hlk, pyContainsStr, hany,
        pySubscriptStr, hval]
  · intro l hlk hstr hany
    have hjoin : recombine_list_header_string l =
        .ok (String.intercalate "\n" (l.map asStr)) := by
      simp [recombine_list_header_string, hstr]
    constructor
    · simp [get_metadata_item_value, getMetadataItemValueBody, hlk, pyContainsStr, hany, hjoin]
    · simp [get_metadata_item_value, getMetadataItemValueBody, hlk, pyContainsStr, hany, hjoin]
  · intro s hlk hsub
    constructor
    · simp [get_metadata_item_value, getMetadataItemValueBody, hlk, pyContainsStr, hsub]
    · simp [get_metadata_item_value, getMetadataItemValueBody, hlk, pyContainsStr, hsub,
        _get_type_cast_value, pyIntOf, pyFloatOf]

/-- A concrete metadata value for the C6 witness. -/
def mdC6w : Metadata :=
  ⟨[(some "latitude", PyVal.dict (fileTokensDict ⟨"-73.86", "degree_north"⟩)),
    (some "summary", PyVal.list [PyVal.str "A", PyVal.str "B"]),
    (some "title", PyVal.str "The title")], []⟩

/-- Claim C6 witness: a pair-valued latitude (cast produces the float), a
two-line summary list (joined, cast leaves the text), and a plain title
string. -/
theorem C6_value_cast_semantics_witness :
    get_metadata_item_value
        ⟨[(some "latitude", PyVal.dict (fileTokensDict ⟨"-73.86", "degree_north"⟩)),
          (some "summary", PyVal.list [PyVal.str "A", PyVal.str "B"]),
          (some "title", PyVal.str "The title")], []⟩
        "latitude" "header" PyVal.none true =
      .ok (_get_type_cast_value (PyVal.str "-73.86"))
    ∧ get_metadata_item_value
        ⟨[(some "latitude", PyVal.dict (fileTokensDict ⟨"-73.86", "degree_north"⟩)),
          (some "summary", PyVal.list [PyVal.str "A", PyVal.str "B"]),
          (some "title", PyVal.str "The title")], []⟩
        "summary" "header" PyVal.none false =
      .ok (PyVal.str (String.intercalate "\n"
        ([PyVal.str "A", PyVal.str "B"].map asStr)))
    ∧ get_metadata_item_value
        ⟨[(some "latitude", PyVal.dict (fileTokensDict ⟨"-73.86", "degree_north"⟩)),
          (some "summary", PyVal.list [PyVal.str "A", PyVal.str "B"]),
          (some "title", PyVal.str "The title")], []⟩
        "title" "header" PyVal.none false = .ok (PyVal.str "The title") := by
  refine ⟨?_, ?_, ?_⟩
  · exact ((C6_value_cast_semantics mdC6w "latitude" PyVal.none).1
      (fileTokensDict ⟨"-73.86", "degree_north"⟩) "-73.86" rfl rfl).2
  · exact ((C6_value_cast_semantics mdC6w "summary" PyVal.none).2.1
      [PyVal.str "A", PyVal.str "B"] rfl rfl rfl).1
  · exact ((C6_value_cast_semantics mdC6w "title" PyVal.none).2.2 "The title" rfl rfl).1

end XCSVSpec

namespace XCSVSpec

/-- A canonical header block for the amended round-trip claim: one keyed line
and its continuation lines, exactly as the writer renders them with the
default padded comment and delimiter. -/
structure CanonBlock where
  key : String
  first : String
  conts : List String

/-- A continuation line in writer form: escaped exactly when the value
contains the delimiter. -/
def renderContLine (v : String) : String :=
  if strContains v ":" then "# : " ++ v else "# " ++ v

/-- The lines of one canonical block. -/
def renderBlock (b : CanonBlock) : List String :=
  ("# " ++ b.key ++ ": " ++ b.first) :: b.conts.map renderContLine

/-- The lines of a list of canonical blocks. -/
def renderBlocks : List CanonBlock → List String
  | [] => []
  | b :: rest => renderBlock b ++ renderBlocks rest

/-- The string has no surrounding whitespace (first and last characters are
not whitespace). -/
def strippedEnds (v : String) : Bool :=
  (v.data.head?.all fun c => !pySpace c) && (v.data.getLast?.all fun c => !pySpace c)

/-- The value survives tokenize-then-reconstruct unchanged (trivially so when
it does not tokenize). -/
def stableVal (v : String) : Bool :=
  match parse_file_header_tokens v with
  | some t => reconstruct_file_header_string (fileTokensDict t) == v
  | Option.none => true

def goodFirst (v : String) : Bool := strippedEnds v && stableVal v

def goodCont (v : String) : Bool :=
  strippedEnds v && !(pyStartsWith v "#") && (parse_file_header_tokens v).isNone

def goodKey (k : String) : Bool :=
  !(k == "") && (k.data.all fun c => c != ':') && strippedEnds k && !(pyStartsWith k "#")

def goodBlock (b : CanonBlock) : Bool :=
  goodKey b.key && goodFirst b.first && b.conts.all goodCont

/-- The header value a canonical block parses to. -/
def blockVal (b : CanonBlock) : PyVal :=
  match b.conts with
  | [] => parsedHeaderValue true b.first
  | _ :: _ => PyVal.list (parsedHeaderValue true b.first :: b.conts.map PyVal.str)

/-- The header a list of canonical blocks parses to. -/
def headerOfBlocks : List CanonBlock → Header
  | [] => []
  | b :: rest => (some b.key, blockVal b) :: headerOfBlocks rest

/-- Successive set-or-append steps of the continuation values. -/
def contAppend : PyVal → PyVal → PyVal
  | PyVal.list l, v => PyVal.list (l ++ [v])
  | prev, v => PyVal.list [prev, v]

def contAppendAll (cur : PyVal) : List String → PyVal
  | [] => cur
  | c :: cs => contAppendAll (contAppend cur (PyVal.str c)) cs

theorem splitOnceL_colon_mid (a b : List Char) (ha : ∀ c ∈ a, c ≠ ':') :
    splitOnceL [':'] (a ++ ':' :: b) = some (a, b) := by
  induction a with
  | nil => simp [splitOnceL, listIsPrefix]
  | cons c cs ih =>
    have hne : (':' == c) = false :=
      beq_eq_false_iff_ne.mpr (Ne.symm (ha c (List.mem_cons_self _ _)))
    have ih2 := ih fun x hx => ha x (List.mem_cons_of_mem _ hx)
    simp [List.cons_append, splitOnceL, listIsPrefix, hne, ih2]

theorem splitOnceL_colon_none (l : List Char) (hl : ∀ c ∈ l, c ≠ ':') :
    splitOnceL [':'] l = Option.none := by
  induction l with
  | nil => rfl
  | cons c cs ih =>
    have hne : (':' == c) = false :=
      beq_eq_false_iff_ne.mpr (Ne.symm (hl c (List.mem_cons_self _ _)))
    have ih2 := ih fun x hx => hl x (List.mem_cons_of_mem _ hx)
    simp [splitOnceL, listIsPrefix, hne, ih2]

theorem dropWhile_of_head (p : Char → Bool) (l : List Char)
    (h : l.head?.all (fun c => !p c) = true) : l.dropWhile p = l := by
  cases l with
  | nil => rfl
  | cons c rest =>
    simp only [List.head?, Option.all_some, Bool.not_eq_true'] at h
    simp [List.dropWhile_cons, h]

theorem pyStripL_of_ends (l : List Char)
    (h1 : l.head?.all (fun c => !pySpace c) = true)
    (h2 : l.getLast?.all (fun c => !pySpace c) = true) : pyStripL l = l := by
  unfold pyStripL
  rw [dropWhile_of_head pySpace l h1]
  rw [dropWhile_of_head pySpace l.reverse (by rw [List.head?_reverse]; exact h2)]
  exact List.reverse_reverse l

theorem pyStripL_space_cons (l : List Char) : pyStripL (' ' :: l) = pyStripL l := by
  unfold pyStripL
  rw [List.dropWhile_cons]
  simp [pySpace]

theorem pyStrip_space_value (f : String) (hf : strippedEnds f = true) :
    pyStrip (String.mk (' ' :: f.data)) = f := by
  simp only [strippedEnds, Bool.and_eq_true] at hf
  show String.mk (pyStripL (' ' :: f.data)) = f
  rw [pyStripL_space_cons, pyStripL_of_ends f.data hf.1 hf.2]

theorem getLast?_cons_cons_of_data (a b : Char) (l : List Char) :
    (a :: b :: l).getLast? = (b :: l).getLast? := by
  simp [List.getLast?]

end XCSVSpec

namespace XCSVSpec

theorem listHasInfix_singleton_of_mem (x : Char) (l : List Char) (h : x ∈ l) :
    listHasInfix [x] l = true := by
  induction l with
  | nil => cases h
  | cons y ys ih =>
    rcases List.mem_cons.mp h with h1 | h1
    · subst h1
      simp [listHasInfix, listIsPrefix]
    · exact listHasInfix_cons _ _ _ (ih h1)

theorem stripHashSpace (s : String)
    (hhead1 : s.data.head?.all (fun c => !pySpace c) = true)
    (hhead2 : pyStartsWith s "#" = false)
    (hlast : s.data.getLast?.all (fun c => !pySpace c) = true) :
    pyLStrip (pyStrip ("# " ++ s)) ("#" ++ " ") = s := by
  cases hd : s.data with
  | nil =>
    have hs : s = "" := by
      have h1 : String.mk s.data = s := rfl
      rw [hd] at h1
      exact h1.symm
    rw [hs]
    decide
  | cons c cs =>
    have hc1 : (!pySpace c) = true := by
      rw [hd] at hhead1
      simpa using hhead1
    have hc2 : ('#' == c) = false := by
      rw [pyStartsWith, hd] at hhead2
      cases hb : '#' == c with
      | false => rfl
      | true => simp [listIsPrefix, hb] at hhead2
    have hstrip : pyStrip ("# " ++ s) = "# " ++ s := by
      show String.mk (pyStripL ('#' :: ' ' :: s.data)) = "# " ++ s
      rw [pyStripL_of_ends]
      · rfl
      · rfl
      · rw [hd, getLast?_cons_cons_of_data, getLast?_cons_cons_of_data, ← hd]
        exact hlast
    rw [hstrip]
    show String.mk (List.dropWhile (fun x => ("#" ++ " ").data.contains x)
      ('#' :: ' ' :: s.data)) = s
    have hne1 : c ≠ '#' := by
      intro he
      rw [he] at hc2
      simp at hc2
    have hne2 : c ≠ ' ' := by
      intro he
      rw [he] at hc1
      simp [pySpace] at hc1
    have hp1 : (("#" ++ " ").data.contains '#') = true := by decide
    have hp2 : (("#" ++ " ").data.contains ' ') = true := by decide
    have hp3 : (("#" ++ " ").data.contains c) = false := by
      show (['#', ' '].contains c) = false
      simp [List.contains, hne1, hne2]
    rw [List.dropWhile_cons]
    simp only [hp1, if_true]
    rw [List.dropWhile_cons]
    simp only [hp2, if_true]
    rw [hd, List.dropWhile_cons]
    simp only [hp3, Bool.false_eq_true, if_false]
    rw [← hd]

theorem readHeaderStore_fresh (h : Header) (k : Key) (value : String)
    (hfresh : lookupAssoc h k = Option.none) :
    readHeaderStore true h k value = .ok (h ++ [(k, parsedHeaderValue true value)]) := by
  have hupd := updateAssoc_of_absent h k (parsedHeaderValue true value) hfresh
  cases hp : parse_file_header_tokens value with
  | none =>
    simp [readHeaderStore, set_header_key_value, hfresh, parsedHeaderValue, hp] at hupd ⊢
    exact hupd
  | some t =>
    simp [readHeaderStore, set_header_key_value, hfresh, parsedHeaderValue, hp] at hupd ⊢
    exact hupd

theorem readHeaderStore_cont (h0 : Header) (k : Key) (cur : PyVal) (c : String)
    (hfresh : lookupAssoc h0 k = Option.none)
    (hparse : parse_file_header_tokens c = Option.none) :
    readHeaderStore true (h0 ++ [(k, cur)]) k c =
      .ok (h0 ++ [(k, contAppend cur (PyVal.str c))]) := by
  have hlk := lookupAssoc_append_fresh h0 k cur hfresh
  have hupd := updateAssoc_append_fresh h0 k cur (contAppend cur (PyVal.str c)) hfresh
  cases cur <;>
    simp_all [readHeaderStore, set_header_key_value, parsedHeaderValue, hparse, contAppend]

theorem read_keyed_line (k f : String) (rest : List String) (key0 : Key) (h : Header)
    (hk : goodKey k = true) (hf : strippedEnds f = true)
    (hfresh : lookupAssoc h (some k) = Option.none) :
    read_header_loop true "#" ":" (("# " ++ k ++ ": " ++ f) :: rest) key0 h =
      read_header_loop true "#" ":" rest (some k)
        (h ++ [(some k, parsedHeaderValue true f)]) := by
  simp only [goodKey, Bool.and_eq_true] at hk
  obtain ⟨⟨⟨hkne, hkcolon⟩, hkends⟩, hkhash⟩ := hk
  have hstart : pyStartsWith ("# " ++ k ++ ": " ++ f) "#" = true := rfl
  have hdata : ("# " ++ k ++ ": " ++ f).data =
      ('#' :: ' ' :: k.data) ++ (':' :: (' ' :: f.data)) := by
    simp [String.data_append, List.append_assoc]
  have hcolon : ∀ c ∈ '#' :: ' ' :: k.data, c ≠ ':' := by
    intro c hc
    rcases List.mem_cons.mp hc with h1 | h1
    · subst h1; decide
    rcases List.mem_cons.mp h1 with h2 | h2
    · subst h2; decide
    · have := List.all_eq_true.mp hkcolon c h2
      simpa using this
  have hsplit : pySplitOnce ("# " ++ k ++ ": " ++ f) ":" =
      some (String.mk ('#' :: ' ' :: k.data), String.mk (' ' :: f.data)) := by
    show (splitOnceL [':'] ("# " ++ k ++ ": " ++ f).data).map
      (fun p => (String.mk p.1, String.mk p.2)) = _
    rw [hdata, splitOnceL_colon_mid _ _ hcolon]
    rfl
  have hleft : pyLStrip (pyStrip (String.mk ('#' :: ' ' :: k.data))) ("#" ++ " ") = k := by
    have hbne : pyStartsWith k "#" = false := by
      cases hb : pyStartsWith k "#" with
      | false => rfl
      | true => rw [hb] at hkhash; simp at hkhash
    simp only [strippedEnds, Bool.and_eq_true] at hkends
    exact stripHashSpace k hkends.1 hbne hkends.2
  have hkne2 : (k != "") = true := by
    cases he : k == "" with
    | false => simp [bne, he]
    | true => rw [he] at hkne; simp at hkne
  have hval : pyStrip (String.mk (' ' :: f.data)) = f := pyStrip_space_value f hf
  rw [read_header_loop]
  rw [hstart, if_pos rfl, hsplit]
  simp only [hleft, hkne2, hval, if_true]
  rw [readHeaderStore_fresh h (some k) f hfresh]

theorem read_cont_line (c : String) (rest : List String) (k : String) (h0 : Header)
    (cur : PyVal) (hc : goodCont c = true) (hk : (k != "") = true)
    (hfresh : lookupAssoc h0 (some k) = Option.none) :
    read_header_loop true "#" ":" (renderContLine c :: rest) (some k)
        (h0 ++ [(some k, cur)]) =
      read_header_loop true "#" ":" rest (some k)
        (h0 ++ [(some k, contAppend cur (PyVal.str c))]) := by
  simp only [goodCont, Bool.and_eq_true] at hc
  obtain ⟨⟨hcends, hchash⟩, hcparse⟩ := hc
  have hparse : parse_file_header_tokens c = Option.none := by
    cases hp : parse_file_header_tokens c with
    | none => rfl
    | some t => rw [hp] at hcparse; simp at hcparse
  have hchash2 : pyStartsWith c "#" = false := by
    cases hb : pyStartsWith c "#" with
    | false => rfl
    | true => rw [hb] at hchash; simp at hchash
  simp only [strippedEnds, Bool.and_eq_true] at hcends
  by_cases hdelim : strContains c ":" = true
  · have hline : renderContLine c = "# : " ++ c := by simp [renderContLine, hdelim]
    have hstart : pyStartsWith ("# : " ++ c) "#" = true := rfl
    have hsplit : pySplitOnce ("# : " ++ c) ":" =
        some (String.mk ['#', ' '], String.mk (' ' :: c.data)) := by
      show (splitOnceL [':'] ("# : " ++ c).data).map
        (fun p => (String.mk p.1, String.mk p.2)) = _
      have hdata : ("# : " ++ c).data = ['#', ' '] ++ (':' :: (' ' :: c.data)) := by
        simp [String.data_append]
      rw [hdata, splitOnceL_colon_mid ['#', ' '] (' ' :: c.data) (by decide)]
      rfl
    have hleftEmpty : pyLStrip (pyStrip (String.mk ['#', ' '])) ("#" ++ " ") = "" := by decide
    have hval : pyStrip (String.mk (' ' :: c.data)) = c :=
      pyStrip_space_value c (by simp [strippedEnds, hcends.1, hcends.2])
    rw [hline, read_header_loop, hstart, if_pos rfl, hsplit]
    simp only [hleftEmpty, hval]
    rw [if_neg (by simp)]
    rw [readHeaderStore_cont h0 (some k) cur c hfresh hparse]
  · have hdelim2 : strContains c ":" = false := by
      cases hb : strContains c ":" with
      | false => rfl
      | true => exact absurd hb hdelim
    have hline : renderContLine c = "# " ++ c := by simp [renderContLine, hdelim2]
    have hstart : pyStartsWith ("# " ++ c) "#" = true := rfl
    have hnocolon : ∀ x ∈ ("# " ++ c).data, x ≠ ':' := by
      have hdata : ("# " ++ c).data = '#' :: ' ' :: c.data := rfl
      rw [hdata]
      intro x hx he
      subst he
      rcases List.mem_cons.mp hx with h1 | h1
      · exact absurd h1 (by decide)
      rcases List.mem_cons.mp h1 with h2 | h2
      · exact absurd h2 (by decide)
      · have hmem : listHasInfix [':'] c.data = true :=
          listHasInfix_singleton_of_mem ':' c.data h2
        have hcc : strContains c ":" = true := hmem
        rw [hcc] at hdelim2
        exact absurd hdelim2 (by decide)
    have hsplit : pySplitOnce ("# " ++ c) ":" = Option.none := by
      show (splitOnceL [':'] ("# " ++ c).data).map
        (fun p => (String.mk p.1, String.mk p.2)) = _
      rw [splitOnceL_colon_none _ hnocolon]
      rfl
    have hvalue : pyLStrip (pyStrip ("# " ++ c)) ("#" ++ " ") = c :=
      stripHashSpace c hcends.1 hchash2 hcends.2
    rw [hline, read_header_loop, hstart, if_pos rfl, hsplit]
    simp only [keyTruthy, hk, if_pos rfl, hvalue]
    rw [readHeaderStore_cont h0 (some k) cur c hfresh hparse]
    simp

end XCSVSpec

namespace XCSVSpec

theorem read_conts (cs : List String) (rest : List String) (k : String) (h0 : Header)
    (cur : PyVal) (hcs : cs.all goodCont = true) (hk : (k != "") = true)
    (hfresh : lookupAssoc h0 (some k) = Option.none) :
    read_header_loop true "#" ":" (cs.map renderContLine ++ rest) (some k)
        (h0 ++ [(some k, cur)]) =
      read_header_loop true "#" ":" rest (some k)
        (h0 ++ [(some k, contAppendAll cur cs)]) := by
  induction cs generalizing cur with
  | nil => rfl
  | cons c cs2 ih =>
    simp only [List.all_cons, Bool.and_eq_true] at hcs
    rw [List.map_cons, List.cons_append]
    rw [read_cont_line c (cs2.map renderContLine ++ rest) k h0 cur hcs.1 hk hfresh]
    exact ih (contAppend cur (PyVal.str c)) hcs.2

theorem contAppendAll_list (l : List PyVal) (cs : List String) :
    contAppendAll (PyVal.list l) cs = PyVal.list (l ++ cs.map PyVal.str) := by
  induction cs generalizing l with
  | nil => simp [contAppendAll]
  | cons c cs2 ih =>
    simp only [contAppendAll, contAppend, List.map_cons]
    rw [ih (l ++ [PyVal.str c])]
    simp

theorem blockVal_eq_contAppendAll (b : CanonBlock) :
    blockVal b = contAppendAll (parsedHeaderValue true b.first) b.conts := by
  have hnl : isList (parsedHeaderValue true b.first) = false := by
    unfold parsedHeaderValue
    cases hp : parse_file_header_tokens b.first <;> simp [isList]
  cases hcs : b.conts with
  | nil => simp [blockVal, contAppendAll, hcs]
  | cons c cs2 =>
    simp only [blockVal, hcs]
    have h1 : contAppendAll (parsedHeaderValue true b.first) (c :: cs2) =
        contAppendAll (PyVal.list [parsedHeaderValue true b.first, PyVal.str c]) cs2 := by
      simp only [contAppendAll]
      cases hv : parsedHeaderValue true b.first <;> simp [contAppend] <;>
        simp [hv, isList] at hnl
    rw [h1, contAppendAll_list]
    simp

theorem read_block (b : CanonBlock) (rest : List String) (key0 : Key) (h : Header)
    (hb : goodBlock b = true) (hfresh : lookupAssoc h (some b.key) = Option.none) :
    read_header_loop true "#" ":" (renderBlock b ++ rest) key0 h =
      read_header_loop true "#" ":" rest (some b.key)
        (h ++ [(some b.key, blockVal b)]) := by
  simp only [goodBlock, Bool.and_eq_true] at hb
  obtain ⟨⟨hkey, hfirst⟩, hconts⟩ := hb
  simp only [goodFirst, Bool.and_eq_true] at hfirst
  have hkne : (b.key != "") = true := by
    simp only [goodKey, Bool.and_eq_true] at hkey
    cases he : b.key == "" with
    | false => simp [bne, he]
    | true => rcases hkey with ⟨⟨⟨h1, _⟩, _⟩, _⟩; rw [he] at h1; simp at h1
  rw [renderBlock, List.cons_append]
  rw [read_keyed_line b.key b.first (b.conts.map renderContLine ++ rest) key0 h hkey
    hfirst.1 hfresh]
  rw [read_conts b.conts rest b.key h (parsedHeaderValue true b.first) hconts hkne hfresh]
  rw [← blockVal_eq_contAppendAll b]

theorem lookupAssoc_append [BEq κ] (l t : List (κ × α)) (k : κ) :
    lookupAssoc (l ++ t) k =
      match lookupAssoc l k with
      | some v => some v
      | Option.none => lookupAssoc t k := by
  induction l with
  | nil => simp [lookupAssoc]
  | cons p rest ih =>
    cases p with
    | mk k1 v1 =>
      by_cases hk : k1 == k
      · simp [lookupAssoc, hk]
      · simp [lookupAssoc, hk, ih]

theorem read_blocks (blocks : List CanonBlock) (tail : List String) (key0 : Key) (h : Header)
    (hbs : blocks.all goodBlock = true)
    (hfresh : ∀ b ∈ blocks, lookupAssoc h (some b.key) = Option.none)
    (hnodup : (blocks.map CanonBlock.key).Nodup) :
    ∃ keyN, read_header_loop true "#" ":" (renderBlocks blocks ++ tail) key0 h =
      read_header_loop true "#" ":" tail keyN (h ++ headerOfBlocks blocks) := by
  induction blocks generalizing key0 h with
  | nil => exact ⟨key0, by simp [renderBlocks, headerOfBlocks]⟩
  | cons b rest ih =>
    simp only [List.all_cons, Bool.and_eq_true] at hbs
    simp only [List.map_cons, List.nodup_cons] at hnodup
    have hstep := read_block b (renderBlocks rest ++ tail) key0 h hbs.1
      (hfresh b (List.mem_cons_self _ _))
    have hfresh2 : ∀ b2 ∈ rest, lookupAssoc (h ++ [(some b.key, blockVal b)])
        (some b2.key) = Option.none := by
      intro b2 hb2
      rw [lookupAssoc_append, hfresh b2 (List.mem_cons_of_mem _ hb2)]
      have hne : ¬(b2.key = b.key) := by
        intro he
        exact hnodup.1 (he ▸ List.mem_map_of_mem CanonBlock.key hb2)
      simp only [lookupAssoc]
      have hne2 : ¬(b.key = b2.key) := fun he => hne (Eq.symm he)
      have hbe : (some b.key == some b2.key) = false := by
        simp [hne2]
      simp [hbe]
    obtain ⟨keyN, hrest⟩ := ih (some b.key) (h ++ [(some b.key, blockVal b)]) hbs.2
      hfresh2 hnodup.2
    refine ⟨keyN, ?_⟩
    rw [renderBlocks, List.append_assoc, hstep, hrest]
    simp [headerOfBlocks, List.append_assoc]

theorem read_canonical (blocks : List CanonBlock) (body : List String)
    (hbs : blocks.all goodBlock = true)
    (hnodup : (blocks.map CanonBlock.key).Nodup)
    (hbody : body.head?.all (fun d => !pyStartsWith d "#") = true) :
    read_header (renderBlocks blocks ++ body) true "#" ":" = .ok (headerOfBlocks blocks) := by
  obtain ⟨keyN, hloop⟩ := read_blocks blocks body Option.none [] hbs
    (by intro b hb; rfl) hnodup
  rw [read_header, hloop]
  cases body with
  | nil => rfl
  | cons d ds =>
    simp only [List.head?, Option.all_some, Bool.not_eq_true'] at hbody
    simp [read_header_loop, hbody]

theorem dropWhile_append_of_all (p : String → Bool) (xs ys : List String)
    (hxs : ∀ x ∈ xs, p x = true) :
    (xs ++ ys).dropWhile p = ys.dropWhile p := by
  induction xs with
  | nil => rfl
  | cons x rest ih =>
    rw [List.cons_append, List.dropWhile_cons, hxs x (List.mem_cons_self _ _)]
    simp [ih fun y hy => hxs y (List.mem_cons_of_mem _ hy)]

theorem renderBlocks_all_hash (blocks : List CanonBlock) :
    ∀ line ∈ renderBlocks blocks, pyStartsWith line "#" = true := by
  induction blocks with
  | nil => intro line h; cases h
  | cons b rest ih =>
    intro line h
    rw [renderBlocks] at h
    rcases List.mem_append.mp h with h1 | h1
    · rw [renderBlock] at h1
      rcases List.mem_cons.mp h1 with h2 | h2
      · subst h2; rfl
      · obtain ⟨c, _, hc⟩ := List.mem_map.mp h2
        subst hc
        unfold renderContLine
        by_cases hd : strContains c ":" = true
        · simp only [hd, if_pos rfl]; rfl
        · simp only [hd, if_neg]; rfl
    · exact ih line h1

theorem dropWhile_render (blocks : List CanonBlock) (body : List String)
    (hbody : body.head?.all (fun d => !pyStartsWith d "#") = true) :
    ((renderBlocks blocks ++ body).dropWhile fun l => pyStartsWith l "#") = body := by
  rw [dropWhile_append_of_all _ _ _ (renderBlocks_all_hash blocks)]
  cases body with
  | nil => rfl
  | cons d ds =>
    simp only [List.head?, Option.all_some, Bool.not_eq_true'] at hbody
    simp [List.dropWhile_cons, hbody]

end XCSVSpec

namespace XCSVSpec

theorem contLine_eq (x : String) :
    format_header_line "# " "" (if strContains x (pyStrip ": ") = true then ": " else "") x =
      renderContLine x := by
  have hps : pyStrip ": " = ":" := rfl
  rw [hps]
  by_cases h : strContains x ":" = true
  · simp only [renderContLine, h, if_pos rfl]
    rfl
  · simp only [renderContLine, h]
    have h2 : strContains x ":" = false := by
      cases hb : strContains x ":" with
      | false => rfl
      | true => exact absurd hb h
    simp only [h2, Bool.false_eq_true, if_false]
    rfl

theorem itemLines_block (b : CanonBlock) (hfirst : stableVal b.first = true) :
    itemLines "# " ": " (some b.key, blockVal b) = renderBlock b := by
  have hhvs : header_value_as_string (parsedHeaderValue true b.first) = b.first := by
    unfold parsedHeaderValue
    cases hp : parse_file_header_tokens b.first with
    | none => rfl
    | some t =>
      simp only [header_value_as_string]
      unfold stableVal at hfirst
      rw [hp] at hfirst
      exact eq_of_beq hfirst
  have hnl : isList (parsedHeaderValue true b.first) = false := by
    unfold parsedHeaderValue
    cases hp : parse_file_header_tokens b.first with
    | none => rfl
    | some t => rfl
  cases hcs : b.conts with
  | nil =>
    have hbv : blockVal b = parsedHeaderValue true b.first := by simp [blockVal, hcs]
    rw [hbv, renderBlock, hcs]
    cases hv : parsedHeaderValue true b.first with
    | str s =>
      rw [hv] at hhvs
      simp [itemLines, fmtKey, format_header_line, hhvs]
    | dict d =>
      rw [hv] at hhvs
      simp [itemLines, fmtKey, format_header_line, hhvs]
    | int n =>
      rw [hv] at hhvs
      simp [itemLines, fmtKey, format_header_line, hhvs]
    | float q =>
      rw [hv] at hhvs
      simp [itemLines, fmtKey, format_header_line, hhvs]
    | none =>
      rw [hv] at hhvs
      simp [itemLines, fmtKey, format_header_line, hhvs]
    | list l =>
      rw [hv] at hnl
      simp [isList] at hnl
  | cons c cs =>
    have hbv : blockVal b =
        PyVal.list (parsedHeaderValue true b.first :: (c :: cs).map PyVal.str) := by
      simp [blockVal, hcs]
    rw [hbv, renderBlock, hcs]
    simp only [itemLines, List.map_cons, List.map_map]
    rw [hhvs]
    congr 1
    congr 1
    · show format_header_line "# " ""
        (if strContains c (pyStrip ": ") = true then ": " else "") c = renderContLine c
      exact contLine_eq c
    · refine List.map_congr_left ?_
      intro x _
      show format_header_line "# " ""
        (if strContains x (pyStrip ": ") = true then ": " else "") x = renderContLine x
      exact contLine_eq x

theorem write_canonical (blocks : List CanonBlock) (hbs : blocks.all goodBlock = true) :
    reconstruct_header_lines "# " ": " (headerOfBlocks blocks) = renderBlocks blocks := by
  induction blocks with
  | nil => rfl
  | cons b rest ih =>
    simp only [List.all_cons, Bool.and_eq_true] at hbs
    have hfirst : stableVal b.first = true := by
      have h1 := hbs.1
      simp only [goodBlock, goodFirst, Bool.and_eq_true] at h1
      exact h1.1.2.2
    rw [headerOfBlocks, reconstruct_header_lines, itemLines_block b hfirst, ih hbs.2,
      renderBlocks]

/-- Claim C7, amended: write-of-read is the identity on files in the writer
canonical form: a sequence of header blocks with distinct, colon-free,
stripped keys, stripped tokenization-stable values, every continuation line
escaped exactly when its value contains the delimiter, followed by a body that
does not begin with the comment character.  The pandas body pass is modelled
from the spec as verbatim lines, which is the claim proviso that no column
mixes numeric types. -/
theorem C7_roundtrip_canonical (blocks : List CanonBlock) (body : List String)
    (hbs : blocks.all goodBlock = true)
    (hnodup : (blocks.map CanonBlock.key).Nodup)
    (hbody : body.head?.all (fun d => !pyStartsWith d "#") = true) :
    roundTrip (renderBlocks blocks ++ body) = .ok (renderBlocks blocks ++ body) := by
  unfold roundTrip readModel
  rw [read_canonical blocks body hbs hnodup hbody]
  simp only []
  rw [dropWhile_render blocks body hbody]
  unfold writeModel
  rw [write_canonical blocks hbs]

/-- Claim C7 amended witness: a concrete canonical file with a scalar item, a
three-line summary whose middle continuation contains the delimiter, and a
two-line body. -/
theorem C7_roundtrip_canonical_witness :
    ([⟨"id", "1", []⟩, ⟨"summary", "A", ["B c:d", "E"]⟩] : List CanonBlock).all
        goodBlock = true
    ∧ roundTrip (renderBlocks [⟨"id", "1", []⟩, ⟨"summary", "A", ["B c:d", "E"]⟩] ++
        ["time", "2012"]) =
      .ok (renderBlocks [⟨"id", "1", []⟩, ⟨"summary", "A", ["B c:d", "E"]⟩] ++
        ["time", "2012"]) :=
  ⟨by decide,
   C7_roundtrip_canonical [⟨"id", "1", []⟩, ⟨"summary", "A", ["B c:d", "E"]⟩]
     ["time", "2012"] (by decide) (by decide) (by decide)⟩

end XCSVSpec
